import Mathlib

/-!
Verification development for the `cdskit` entity-export pipeline
(`ExportKindCmd` and its helpers).

The Go source is shallowly embedded as follows:

* Go `interface{}` values, as they flow through this program, become the
  inductive type `GoValue`.  The constructors mirror the dynamic types the
  code dispatches on: `nil`, scalars (`bool`, `int64`, `string`, and a
  `NaN` float, which `encoding/json` rejects), `*datastore.Key`,
  `*datastore.Entity` (its `Properties` slice as a name/value list),
  `[]interface{}`, `map[string]interface{}`, and `datastore.Property`.
* Go maps (`map[string]interface{}`) are modeled as association lists in
  first-insertion order with last-write-wins updates (`mapInsert`).  Go's
  randomized map iteration order is replaced by this fixed insertion
  order; no theorem below depends on a particular iteration order.
* Stateful writers (`jsonExportWriter`, `csvExportWriter`) become explicit
  state-passing functions over small state structures; the bytes written
  to the output file become a `String` field, rows handed to `csv.Writer`
  become a `List (List String)` field, and `fmt.Fprintf(os.Stderr, ...)`
  diagnostics become a `log : List String` field.
* The paginated driver loop of `ExportKindCmd.Execute` becomes
  `exportKindLoop`; the datastore is an explicit dataset
  `ds : List (List Property)` (one raw property list per stored entity),
  and `GetAll` on a query with offset `o` and limit 1000 returns
  `(ds.drop o).take 1000`.  A `GetAll` error is modeled by a set of
  offsets at which the fetch fails.
-/

namespace Cdskit

/-- A Go `interface{}` value as it occurs in this program.  `vnan` stands
for a float64 NaN, a value the datastore can deliver and that
`encoding/json` refuses to marshal.  `entity` is `*datastore.Entity` with
its `Properties` slice as (Name, Value) pairs; `key` is `*datastore.Key`
(only the `Name` and `ID` fields are read by this program); `arr` is
`[]interface{}`; `gomap` is `map[string]interface{}` (an association list
in first-insertion order); `prop` is a `datastore.Property`. -/
inductive GoValue : Type where
  | vnil : GoValue
  | vbool (b : Bool) : GoValue
  | vint (n : Int) : GoValue
  | vstr (s : String) : GoValue
  | vnan : GoValue
  | key (name : String) (id : Int) : GoValue
  | entity (props : List (String × GoValue)) : GoValue
  | arr (elems : List GoValue) : GoValue
  | gomap (fields : List (String × GoValue)) : GoValue
  | prop (name : String) (value : GoValue) : GoValue
deriving Repr

/-- Go `v == nil` on an `interface{}` value. -/
def isNil : GoValue → Bool
  | .vnil => true
  | _ => false

/-- Go map assignment `m[k] = v` on a `map[string]interface{}` modeled as
an association list: replace the existing binding for `k` if present,
otherwise append the new binding. -/
def mapInsert (m : List (String × GoValue)) (k : String) (v : GoValue) :
    List (String × GoValue) :=
  if m.any (fun p => p.1 = k) then
    m.map (fun p => if p.1 = k then (k, v) else p)
  else
    m ++ [(k, v)]

mutual

/-- `toExportValue` from the source: normalizes a raw datastore value.
Nested entities become plain maps of their normalized non-nil fields,
keys become their name (or the decimal form of their numeric id when the
name is empty), slices keep their normalized non-nil elements, a
`datastore.Property` is unwrapped to its value, and everything else
passes through unchanged. -/
def toExportValue : GoValue → GoValue
  | .entity props => .gomap (exportEntityProps [] props)
  | .key name id => .vstr (if name.length = 0 then toString id else name)
  | .arr elems => .arr (exportArrElems elems)
  | .prop _ v => toExportValue v
  | .vnil => .vnil
  | .vbool b => .vbool b
  | .vint n => .vint n
  | .vstr s => .vstr s
  | .vnan => .vnan
  | .gomap m => .gomap m

/-- The `*datastore.Entity` branch of `toExportValue`: builds the map `f`
by iterating over the properties, skipping nil values, and storing the
normalized value under the property name.  `acc` is the map built so
far. -/
def exportEntityProps (acc : List (String × GoValue)) :
    List (String × GoValue) → List (String × GoValue)
  | [] => acc
  | p :: ps =>
    if isNil p.2 then exportEntityProps acc ps
    else exportEntityProps (mapInsert acc p.1 (toExportValue p.2)) ps

/-- The `[]interface{}` branch of `toExportValue`: keeps the normalized
non-nil elements in order. -/
def exportArrElems : List GoValue → List GoValue
  | [] => []
  | e :: es =>
    if isNil e then exportArrElems es
    else toExportValue e :: exportArrElems es

end

/-- One `datastore.Property` as delivered to `dynamicEntity.Load`. -/
structure Property where
  name : String
  value : GoValue
deriving Repr

/-- The loop body of `dynamicEntity.Load`: for each property with a
non-nil value, store `toExportValue(p)` (the whole property, which the
`datastore.Property` case of `toExportValue` unwraps) under the property
name.  `acc` is the `de.value` map built so far. -/
def loadProps (acc : List (String × GoValue)) :
    List Property → List (String × GoValue)
  | [] => acc
  | p :: ps =>
    if isNil p.value then loadProps acc ps
    else loadProps (mapInsert acc p.name (toExportValue (.prop p.name p.value))) ps

/-- `dynamicEntity.Load` applied to a fresh entity (`de.value == nil`, so
it starts from the empty map): the resulting `value` map. -/
def dynamicEntityLoad (ps : List Property) : List (String × GoValue) :=
  loadProps [] ps

mutual

/-- The `traverse` helper from the source, with the callback reified: the
list of `(path, leaf)` pairs `fn` would be invoked with, in order.  A
non-map value yields the single pair `("", v)`; a map prefixes each
sub-pair's path with the field key, joined by `:` unless the sub-path is
empty (in which case the field key alone is used). -/
def traverseVal : GoValue → List (String × GoValue)
  | .gomap m => traverseFields m
  | v => [("", v)]

/-- The map branch of `traverse`: iterate over the fields and rewrap each
descendant's path with this field's key. -/
def traverseFields : List (String × GoValue) → List (String × GoValue)
  | [] => []
  | (sk, sv) :: rest =>
    (traverseVal sv).map
      (fun q => if q.1 = "" then (sk, q.2) else (sk ++ ":" ++ q.1, q.2))
      ++ traverseFields rest

end

/-! ### Structural predicates on values -/

mutual

/-- No `datastore.Property` wrapper occurs anywhere inside the value. -/
def propFree : GoValue → Bool
  | .prop _ _ => false
  | .entity l => propFreeFields l
  | .arr l => propFreeElems l
  | .gomap l => propFreeFields l
  | .vnil => true
  | .vbool _ => true
  | .vint _ => true
  | .vstr _ => true
  | .vnan => true
  | .key _ _ => true

/-- `propFree` on every value of a name/value list. -/
def propFreeFields : List (String × GoValue) → Bool
  | [] => true
  | p :: l => propFree p.2 && propFreeFields l

/-- `propFree` on every element of a value list. -/
def propFreeElems : List GoValue → Bool
  | [] => true
  | v :: l => propFree v && propFreeElems l

end

mutual

/-- The value domain of `datastore.Property.Value` as delivered by the
cloud datastore client: `nil`, scalars (including NaN floats),
`*datastore.Key`, `*datastore.Entity` over the same domain, and
`[]interface{}` over the same domain.  The client never delivers a raw
`map[string]interface{}` or a `datastore.Property` as a property value. -/
def dsValue : GoValue → Bool
  | .vnil => true
  | .vbool _ => true
  | .vint _ => true
  | .vstr _ => true
  | .vnan => true
  | .key _ _ => true
  | .entity l => dsValueFields l
  | .arr l => dsValueElems l
  | .gomap _ => false
  | .prop _ _ => false

/-- `dsValue` on every value of a name/value list. -/
def dsValueFields : List (String × GoValue) → Bool
  | [] => true
  | p :: l => dsValue p.2 && dsValueFields l

/-- `dsValue` on every element of a value list. -/
def dsValueElems : List GoValue → Bool
  | [] => true
  | v :: l => dsValue v && dsValueElems l

end

mutual

/-- No `nil` value occurs anywhere inside the value, recursively through
maps, entities, sequences and property wrappers. -/
def nilFree : GoValue → Bool
  | .vnil => false
  | .vbool _ => true
  | .vint _ => true
  | .vstr _ => true
  | .vnan => true
  | .key _ _ => true
  | .entity l => nilFreeFields l
  | .arr l => nilFreeElems l
  | .gomap l => nilFreeFields l
  | .prop _ v => nilFree v

/-- `nilFree` on every value of a name/value list. -/
def nilFreeFields : List (String × GoValue) → Bool
  | [] => true
  | p :: l => nilFree p.2 && nilFreeFields l

/-- `nilFree` on every element of a value list. -/
def nilFreeElems : List GoValue → Bool
  | [] => true
  | v :: l => nilFree v && nilFreeElems l

end

mutual

/-- Every field name of every map inside the value (at any depth) is
non-empty. -/
def keysNonempty : GoValue → Bool
  | .gomap l => keysNonemptyFields l
  | _ => true

/-- `keysNonempty` for a map's field list: each key is non-empty and each
value satisfies `keysNonempty`. -/
def keysNonemptyFields : List (String × GoValue) → Bool
  | [] => true
  | p :: l => (!(p.1 = "")) && keysNonempty p.2 && keysNonemptyFields l

end

/-- Written from the words of the flattening claim, for comparison with
the `traverse` of the source: a top-level field contributes its own name
as the path; a nested map field contributes, for each of its descendants,
the colon-joined path `parentKey:childPath`; any non-map value is a leaf
emitted under its key without further decomposition. -/
def flattenSpec : List (String × GoValue) → List (String × GoValue)
  | [] => []
  | (k, .gomap m) :: rest =>
    (flattenSpec m).map (fun q => (k ++ ":" ++ q.1, q.2)) ++ flattenSpec rest
  | (k, v) :: rest => (k, v) :: flattenSpec rest

/-! ### CSV rendering (`ToCSVHeader`, `ToCSVRecord`) -/

/-- `dynamicEntity.ToCSVHeader`: the flattened field paths of the value
map, in traversal order. -/
def toCSVHeader (m : List (String × GoValue)) : List String :=
  (traverseVal (.gomap m)).map Prod.fst

mutual

/-- Scalar text rendering used by `ToCSVRecord`.  None of the modeled
value types implement `encoding.TextMarshaler`, so the
`fmt.Sprintf("%v", val)` branch of the source always applies.  The
`gomap` case is unreachable from `ToCSVRecord` (the traversal never
yields a map as a leaf), and the `key`/`entity`/`prop` cases cannot occur
in a `Load`-normalized value map; for those foreign values Go's
reflection-based printing is modeled only coarsely. -/
def csvRender : GoValue → String
  | .vnil => "<nil>"
  | .vbool b => if b then "true" else "false"
  | .vint n => toString n
  | .vstr s => s
  | .vnan => "NaN"
  | .arr es => "[" ++ String.intercalate " " (csvRenderElems es) ++ "]"
  | .gomap m => "map[" ++ String.intercalate " " (csvRenderFields m) ++ "]"
  | .key name id => "/" ++ (if name.length = 0 then toString id else name)
  | .entity _ => "<entity>"
  | .prop n _ => "<property " ++ n ++ ">"

/-- `csvRender` on every element of a value list. -/
def csvRenderElems : List GoValue → List String
  | [] => []
  | v :: l => csvRender v :: csvRenderElems l

/-- `csvRender` on every field of a name/value list, as `key:value`. -/
def csvRenderFields : List (String × GoValue) → List String
  | [] => []
  | p :: l => (p.1 ++ ":" ++ csvRender p.2) :: csvRenderFields l

end

/-- `dynamicEntity.ToCSVRecord`: the flattened leaf values of the value
map, rendered as text, in traversal order. -/
def toCSVRecord (m : List (String × GoValue)) : List String :=
  (traverseVal (.gomap m)).map (fun q => csvRender q.2)

/-! ### JSON rendering (`ToJSON`, i.e. `encoding/json.Marshal`) -/

/-- Lowercase hexadecimal digit. -/
def hexDigit (n : Nat) : Char :=
  if n < 10 then Char.ofNat (48 + n) else Char.ofNat (87 + n)

/-- Escaping of one character inside a JSON string, as `encoding/json`
does it with the default HTML escaper. -/
def jsonEscapeChar (c : Char) : String :=
  if c = '"' then "\\\""
  else if c = '\\' then "\\\\"
  else if c = '\n' then "\\n"
  else if c = '\r' then "\\r"
  else if c = '\t' then "\\t"
  else if c = '<' then "\\u003c"
  else if c = '>' then "\\u003e"
  else if c = '&' then "\\u0026"
  else if c.toNat < 32 then "\\u00" ++ String.mk [hexDigit (c.toNat / 16), hexDigit (c.toNat % 16)]
  else if c.toNat = 0x2028 then "\\u2028"
  else if c.toNat = 0x2029 then "\\u2029"
  else String.singleton c

/-- A JSON string literal for `s`. -/
def jsonQuote (s : String) : String :=
  "\"" ++ String.join (s.data.map jsonEscapeChar) ++ "\""

/-- Insert a field into a key-sorted field list, keeping it sorted by key
in ascending string order. -/
def insertField (p : String × GoValue) :
    List (String × GoValue) → List (String × GoValue)
  | [] => [p]
  | q :: qs => if p.1 < q.1 then p :: q :: qs else q :: insertField p qs

/-- Sort a field list by key in ascending string order (insertion sort),
as `encoding/json` orders the keys of a marshaled Go map. -/
def sortFields : List (String × GoValue) → List (String × GoValue)
  | [] => []
  | p :: ps => insertField p (sortFields ps)

mutual

/-- Recursively sort the field lists of every map inside the value.
`encoding/json.Marshal` emits the fields of a Go map in ascending key
order at every depth; we model this by sorting first (`sortValue`) and
then rendering in list order (`goJsonRender`). -/
def sortValue : GoValue → GoValue
  | .gomap m => .gomap (sortFields (sortValueFields m))
  | .arr es => .arr (sortValueElems es)
  | .entity l => .entity (sortValueFields l)
  | .prop n v => .prop n (sortValue v)
  | .vnil => .vnil
  | .vbool b => .vbool b
  | .vint n => .vint n
  | .vstr s => .vstr s
  | .vnan => .vnan
  | .key n i => .key n i

/-- `sortValue` on every value of a name/value list. -/
def sortValueFields : List (String × GoValue) → List (String × GoValue)
  | [] => []
  | p :: l => (p.1, sortValue p.2) :: sortValueFields l

/-- `sortValue` on every element of a value list. -/
def sortValueElems : List GoValue → List GoValue
  | [] => []
  | v :: l => sortValue v :: sortValueElems l

end

mutual

/-- Rendering half of the `encoding/json.Marshal` model: serialize a
value whose maps are already key-sorted.  `nil` renders as `null`,
scalars render canonically, a NaN float is rejected with an error (as
`encoding/json` does), sequences and maps render recursively.  The
`key`/`entity`/`prop` cases cannot occur in a `Load`-normalized value
map (they are eliminated by `toExportValue`); Go would marshal those
foreign values through `MarshalJSON`/reflection, which is not modeled,
so they are mapped to an error here and no theorem below relies on
them. -/
def goJsonRender : GoValue → Except String String
  | .vnil => .ok "null"
  | .vbool b => .ok (if b then "true" else "false")
  | .vint n => .ok (toString n)
  | .vstr s => .ok (jsonQuote s)
  | .vnan => .error "json: unsupported value: NaN"
  | .arr es =>
    match goJsonRenderElems es with
    | .ok parts => .ok ("[" ++ String.intercalate "," parts ++ "]")
    | .error e => .error e
  | .gomap m =>
    match goJsonRenderFields m with
    | .ok parts => .ok ("\x7b" ++ String.intercalate "," parts ++ "\x7d")
    | .error e => .error e
  | .key _ _ => .error "json: unsupported foreign value"
  | .entity _ => .error "json: unsupported foreign value"
  | .prop _ _ => .error "json: unsupported foreign value"

/-- Render the elements of a JSON array, failing on the first error. -/
def goJsonRenderElems : List GoValue → Except String (List String)
  | [] => .ok []
  | v :: vs =>
    match goJsonRender v, goJsonRenderElems vs with
    | .ok s, .ok ss => .ok (s :: ss)
    | .error e, _ => .error e
    | _, .error e => .error e

/-- Render the fields of a JSON object, failing on the first error. -/
def goJsonRenderFields : List (String × GoValue) → Except String (List String)
  | [] => .ok []
  | p :: ps =>
    match goJsonRender p.2, goJsonRenderFields ps with
    | .ok s, .ok ss => .ok ((jsonQuote p.1 ++ ":" ++ s) :: ss)
    | .error e, _ => .error e
    | _, .error e => .error e

end

/-- `dynamicEntity.ToJSON`: `json.Marshal(de.value)`, modeled as key
sorting followed by rendering. -/
def dynamicEntityToJSON (m : List (String × GoValue)) : Except String String :=
  goJsonRender (sortValue (.gomap m))

/-! ### The JSON export writer -/

/-- State of a `jsonExportWriter`: `out` is the byte stream written to
the output file so far, `first` the first-record flag, and `log` the
diagnostics printed to stderr. -/
structure JsonWriterState where
  out : String
  first : Bool
  log : List String
deriving Repr

/-- The writer state right after `newExportWriter` builds
`jsonExportWriter{writer: f, first: true}` on a fresh file. -/
def jsonWriterInit : JsonWriterState :=
  { out := "", first := true, log := [] }

/-- `jsonExportWriter.start`: writes `[`. -/
def jsonStart (s : JsonWriterState) : JsonWriterState :=
  { s with out := s.out ++ "[" }

/-- `jsonExportWriter.record`: marshal the entity; on a marshal error,
log and return without writing.  Otherwise write the marshaled bytes,
and afterwards either write the `,\n` separator (when this was not the
first record) or clear the first-record flag (when it was).  Writes to
the output file itself are modeled as always succeeding, so the
`Unable to write entry` branch of the source is not reachable here. -/
def jsonRecord (s : JsonWriterState) (de : List (String × GoValue)) :
    JsonWriterState :=
  match dynamicEntityToJSON de with
  | .error e => { s with log := s.log ++ ["Unable to marshal entry: " ++ e] }
  | .ok v =>
    let s1 := { s with out := s.out ++ v }
    if !s1.first then { s1 with out := s1.out ++ ",\n" }
    else { s1 with first := false }

/-- `jsonExportWriter.end`: writes `]`. -/
def jsonEnd (s : JsonWriterState) : JsonWriterState :=
  { s with out := s.out ++ "]" }

/-! ### The CSV export writer -/

/-- State of a `csvExportWriter`: `headed` is the header-written flag and
`rows` the rows handed to the underlying `csv.Writer`, in order.  Rows
are modeled at the `csv.Writer.Write` interface (lists of column
strings), not at the quoted-byte level. -/
structure CsvWriterState where
  headed : Bool
  rows : List (List String)
deriving Repr

/-- The writer state right after `newExportWriter` builds
`csvExportWriter` on a fresh file. -/
def csvWriterInit : CsvWriterState :=
  { headed := false, rows := [] }

/-- `csvExportWriter.start`: a no-op. -/
def csvStart (s : CsvWriterState) : CsvWriterState := s

/-- `csvExportWriter.record`: on the first call additionally write the
header row derived from this record, then always write the record's data
row. -/
def csvRecord (s : CsvWriterState) (de : List (String × GoValue)) :
    CsvWriterState :=
  if !s.headed then
    { headed := true, rows := s.rows ++ [toCSVHeader de, toCSVRecord de] }
  else
    { s with rows := s.rows ++ [toCSVRecord de] }

/-- `csvExportWriter.end`: a no-op. -/
def csvEnd (s : CsvWriterState) : CsvWriterState := s

/-! ### The export driver (`ExportKindCmd.Execute`) -/

/-- Result of running the paginated export loop: the final writer state,
the trace of batch sizes returned by the successive `GetAll` calls that
succeeded, and whether the loop finished or aborted on a fetch error. -/
structure LoopResult (σ : Type) where
  writer : σ
  trace : List Nat
  result : Except Unit Unit
deriving Repr

/-- The fetch loop of `ExportKindCmd.Execute`, generic in the writer.
The datastore holds `ds` (one raw property list per stored entity of the
kind); the query at offset `o` with limit 1000 returns
`(ds.drop o).take 1000`, and fails precisely when `o ∈ failOffsets`
(modeling a `GetAll` error, on which `Execute` returns the error at
once).  Each returned entity is a fresh `dynamicEntity` populated via
`Load` and handed to the writer's `record`; the offset then advances by
the number of records read, and the loop stops when a fetch returns zero
records. -/
def exportKindLoop {σ : Type} (recordFn : σ → List (String × GoValue) → σ)
    (ds : List (List Property)) (failOffsets : List Nat)
    (offset : Nat) (st : σ) : LoopResult σ :=
  if offset ∈ failOffsets then
    { writer := st, trace := [], result := .error () }
  else
    let batch := (ds.drop offset).take 1000
    if h : batch.length = 0 then
      { writer := st, trace := [0], result := .ok () }
    else
      let st2 := batch.foldl (fun s ps => recordFn s (dynamicEntityLoad ps)) st
      let r := exportKindLoop recordFn ds failOffsets (offset + batch.length) st2
      { r with trace := batch.length :: r.trace }
termination_by ds.length - offset
decreasing_by
  unfold_let batch at h ⊢
  simp only [List.length_take, List.length_drop] at h ⊢
  omega

/-- `ExportKindCmd.Execute` in JSON mode, starting from a fresh output
file: `w.start()`, the fetch loop, and — only when no fetch failed —
`w.end()` and a nil return. -/
def exportKindJson (ds : List (List Property)) (failOffsets : List Nat) :
    LoopResult JsonWriterState :=
  let r := exportKindLoop jsonRecord ds failOffsets 0 (jsonStart jsonWriterInit)
  match r.result with
  | .ok _ => { r with writer := jsonEnd r.writer }
  | .error _ => r

/-- `ExportKindCmd.Execute` in CSV mode, starting from a fresh output
file. -/
def exportKindCsv (ds : List (List Property)) (failOffsets : List Nat) :
    LoopResult CsvWriterState :=
  let r := exportKindLoop csvRecord ds failOffsets 0 (csvStart csvWriterInit)
  match r.result with
  | .ok _ => { r with writer := csvEnd r.writer }
  | .error _ => r

/-- The page sizes the driver reads for a dataset of `n` entities with
page limit 1000: full pages of 1000, then the remainder, then the empty
page that stops the loop. -/
def chunkSizes (n : Nat) : List Nat :=
  if n = 0 then [0]
  else min 1000 n :: chunkSizes (n - min 1000 n)
termination_by n
decreasing_by omega

/-! ### Basic lemmas about the embedded operations -/

theorem isNil_eq_true_iff (v : GoValue) : isNil v = true ↔ v = .vnil := by
  cases v <;> simp [isNil]

theorem isNil_eq_false_iff (v : GoValue) : isNil v = false ↔ v ≠ .vnil := by
  cases v <;> simp [isNil]

theorem mem_mapInsert (q : String × GoValue) (m : List (String × GoValue))
    (k : String) (v : GoValue) (h : q ∈ mapInsert m k v) :
    q ∈ m ∨ q = (k, v) := by
  unfold mapInsert at h
  split at h
  · obtain ⟨p, hp, he⟩ := List.mem_map.mp h
    by_cases hk : p.1 = k
    · simp only [hk, if_pos rfl] at he
      right
      exact he.symm
    · simp only [if_neg hk] at he
      left
      exact he ▸ hp
  · rcases List.mem_append.mp h with h1 | h1
    · exact Or.inl h1
    · right
      simpa using h1

theorem mem_keys_mapInsert (x : String) (m : List (String × GoValue))
    (k : String) (v : GoValue)
    (h : x ∈ (mapInsert m k v).map Prod.fst) :
    x ∈ m.map Prod.fst ∨ x = k := by
  obtain ⟨q, hq, hx⟩ := List.mem_map.mp h
  rcases mem_mapInsert q m k v hq with h1 | h1
  · exact Or.inl (List.mem_map.mpr ⟨q, h1, hx⟩)
  · right
    rw [h1] at hx
    exact hx.symm

theorem propFreeElems_iff (l : List GoValue) :
    propFreeElems l = true ↔ ∀ v ∈ l, propFree v = true := by
  induction l with
  | nil => simp [propFreeElems]
  | cons v l ih => simp [propFreeElems, ih]

theorem propFreeFields_iff (l : List (String × GoValue)) :
    propFreeFields l = true ↔ ∀ q ∈ l, propFree q.2 = true := by
  induction l with
  | nil => simp [propFreeFields]
  | cons q l ih => simp [propFreeFields, ih]

theorem dsValueElems_iff (l : List GoValue) :
    dsValueElems l = true ↔ ∀ v ∈ l, dsValue v = true := by
  induction l with
  | nil => simp [dsValueElems]
  | cons v l ih => simp [dsValueElems, ih]

theorem dsValueFields_iff (l : List (String × GoValue)) :
    dsValueFields l = true ↔ ∀ q ∈ l, dsValue q.2 = true := by
  induction l with
  | nil => simp [dsValueFields]
  | cons q l ih => simp [dsValueFields, ih]

theorem nilFreeElems_iff (l : List GoValue) :
    nilFreeElems l = true ↔ ∀ v ∈ l, nilFree v = true := by
  induction l with
  | nil => simp [nilFreeElems]
  | cons v l ih => simp [nilFreeElems, ih]

theorem nilFreeFields_iff (l : List (String × GoValue)) :
    nilFreeFields l = true ↔ ∀ q ∈ l, nilFree q.2 = true := by
  induction l with
  | nil => simp [nilFreeFields]
  | cons q l ih => simp [nilFreeFields, ih]

theorem keysNonemptyFields_iff (l : List (String × GoValue)) :
    keysNonemptyFields l = true ↔
      ∀ q ∈ l, ¬ q.1 = "" ∧ keysNonempty q.2 = true := by
  induction l with
  | nil => simp [keysNonemptyFields]
  | cons q l ih => simp [keysNonemptyFields, ih, and_assoc]

theorem mem_exportEntityProps :
    ∀ (ps : List (String × GoValue)) (acc : List (String × GoValue))
      (q : String × GoValue), q ∈ exportEntityProps acc ps →
      q ∈ acc ∨ ∃ p ∈ ps, isNil p.2 = false ∧ q = (p.1, toExportValue p.2) := by
  intro ps
  induction ps with
  | nil =>
    intro acc q h
    rw [exportEntityProps] at h
    exact Or.inl h
  | cons p ps ih =>
    intro acc q h
    rw [exportEntityProps] at h
    split at h
    · rcases ih acc q h with h1 | ⟨p1, hp1, h2⟩
      · exact Or.inl h1
      · exact Or.inr ⟨p1, List.mem_cons_of_mem _ hp1, h2⟩
    · rcases ih _ q h with h1 | ⟨p1, hp1, h2⟩
      · rcases mem_mapInsert q acc p.1 (toExportValue p.2) h1 with h2 | h2
        · exact Or.inl h2
        · refine Or.inr ⟨p, List.mem_cons_self _ _, ?_, h2⟩
          simpa using Bool.not_eq_true _ ▸ (by assumption : ¬ isNil p.2 = true)
      · exact Or.inr ⟨p1, List.mem_cons_of_mem _ hp1, h2⟩

theorem mem_exportArrElems :
    ∀ (es : List GoValue) (x : GoValue), x ∈ exportArrElems es →
      ∃ e ∈ es, isNil e = false ∧ x = toExportValue e := by
  intro es
  induction es with
  | nil =>
    intro x h
    rw [exportArrElems] at h
    simp at h
  | cons e es ih =>
    intro x h
    rw [exportArrElems] at h
    split at h
    · obtain ⟨e1, he1, h2⟩ := ih x h
      exact ⟨e1, List.mem_cons_of_mem _ he1, h2⟩
    · rcases List.mem_cons.mp h with h1 | h1
      · refine ⟨e, List.mem_cons_self _ _, ?_, h1⟩
        simpa using Bool.not_eq_true _ ▸ (by assumption : ¬ isNil e = true)
      · obtain ⟨e1, he1, h2⟩ := ih x h1
        exact ⟨e1, List.mem_cons_of_mem _ he1, h2⟩

theorem mem_loadProps :
    ∀ (ps : List Property) (acc : List (String × GoValue))
      (q : String × GoValue), q ∈ loadProps acc ps →
      q ∈ acc ∨ ∃ p ∈ ps, isNil p.value = false ∧
        q = (p.name, toExportValue (.prop p.name p.value)) := by
  intro ps
  induction ps with
  | nil =>
    intro acc q h
    rw [loadProps] at h
    exact Or.inl h
  | cons p ps ih =>
    intro acc q h
    rw [loadProps] at h
    split at h
    · rcases ih acc q h with h1 | ⟨p1, hp1, h2⟩
      · exact Or.inl h1
      · exact Or.inr ⟨p1, List.mem_cons_of_mem _ hp1, h2⟩
    · rcases ih _ q h with h1 | ⟨p1, hp1, h2⟩
      · rcases mem_mapInsert q acc p.name _ h1 with h2 | h2
        · exact Or.inl h2
        · refine Or.inr ⟨p, List.mem_cons_self _ _, ?_, h2⟩
          simpa using Bool.not_eq_true _ ▸ (by assumption : ¬ isNil p.value = true)
      · exact Or.inr ⟨p1, List.mem_cons_of_mem _ hp1, h2⟩

theorem drop_length_take {α : Type} (X : List α) (n : Nat) :
    X.drop ((X.take n).length) = X.drop n := by
  rw [List.length_take]
  rcases Nat.le_total n X.length with h | h
  · rw [Nat.min_eq_left h]
  · rw [Nat.min_eq_right h, List.drop_eq_nil_of_le le_rfl,
      List.drop_eq_nil_of_le h]

theorem chunkSizes_ne_nil (n : Nat) : chunkSizes n ≠ [] := by
  rw [chunkSizes]
  split <;> simp

theorem getLast?_cons_ne {α : Type} (a : α) (l : List α) (h : l ≠ []) :
    (a :: l).getLast? = l.getLast? := by
  cases l with
  | nil => exact absurd rfl h
  | cons b t => exact List.getLast?_cons_cons

theorem chunkSizes_getLast (n : Nat) : (chunkSizes n).getLast? = some 0 := by
  induction n using Nat.strong_induction_on with
  | _ n ih =>
    rw [chunkSizes]
    split
    · simp
    · rename_i h
      rw [getLast?_cons_ne _ _ (chunkSizes_ne_nil _)]
      exact ih (n - min 1000 n) (by omega)

theorem chunkSizes_dropLast (n : Nat) :
    ((chunkSizes n).dropLast.all (fun x => x != 0)) = true := by
  induction n using Nat.strong_induction_on with
  | _ n ih =>
    rw [chunkSizes]
    split
    · simp
    · rename_i h
      rw [List.dropLast_cons_of_ne_nil (chunkSizes_ne_nil _)]
      simp only [List.all_cons, Bool.and_eq_true]
      refine And.intro ?_ (ih (n - min 1000 n) (by omega))
      simp only [bne_iff_ne]
      omega

/-- With no fetch failures, the driver loop starting at `offset` loads
and writes exactly the entities from `offset` on, in order, reads the
page sizes `chunkSizes` predicts, and finishes normally. -/
theorem exportKindLoop_ok {σ : Type} (f : σ → List (String × GoValue) → σ)
    (ds : List (List Property)) (offset : Nat) (st : σ) :
    exportKindLoop f ds [] offset st =
      { writer := (((ds.drop offset).map dynamicEntityLoad).foldl f st),
        trace := chunkSizes (ds.length - offset),
        result := .ok () } := by
  rw [exportKindLoop]
  rw [if_neg (by simp : ¬ offset ∈ ([] : List Nat))]
  dsimp only
  split
  · rename_i h
    have h0 : ds.length ≤ offset := by
      simp only [List.length_take, List.length_drop] at h
      omega
    have hdrop : ds.drop offset = [] := List.drop_eq_nil_of_le h0
    rw [chunkSizes]
    simp [hdrop, Nat.sub_eq_zero_of_le h0]
  · rename_i h
    rw [exportKindLoop_ok f ds (offset + ((ds.drop offset).take 1000).length) _]
    have hbl : ((ds.drop offset).take 1000).length = min 1000 (ds.length - offset) := by
      simp [List.length_take, List.length_drop]
    have hbl0 : ((ds.drop offset).take 1000).length ≠ 0 := h
    have hn0 : ds.length - offset ≠ 0 := by omega
    have hsplit : (ds.drop offset).take 1000
        ++ ds.drop (offset + ((ds.drop offset).take 1000).length) = ds.drop offset := by
      rw [← List.drop_drop, drop_length_take (ds.drop offset) 1000]
      exact List.take_append_drop _ _
    dsimp only
    simp only [LoopResult.mk.injEq]
    refine And.intro ?_ (And.intro ?_ trivial)
    · rw [← List.foldl_map dynamicEntityLoad f, ← List.foldl_append,
        ← List.map_append, hsplit]
    · conv_rhs => rw [chunkSizes]
      rw [if_neg hn0]
      rw [hbl]
      have harg : ds.length - (offset + 1000 ⊓ (ds.length - offset))
          = ds.length - offset - 1000 ⊓ (ds.length - offset) := by omega
      rw [harg]
termination_by ds.length - offset
decreasing_by
  simp only [List.length_take, List.length_drop] at *
  omega

/-! ### Lemmas about the JSON writer -/

/-- Whether `ToJSON` succeeds on the entity map. -/
def marshalOk (de : List (String × GoValue)) : Bool :=
  match dynamicEntityToJSON de with
  | .ok _ => true
  | .error _ => false

/-- The marshaled JSON text of an entity map (empty on marshal error). -/
def jstr (de : List (String × GoValue)) : String :=
  match dynamicEntityToJSON de with
  | .ok s => s
  | .error _ => ""

/-- Concatenation of a list of strings. -/
def strJoin : List String → String
  | [] => ""
  | s :: l => s ++ strJoin l

theorem toJSON_eq_jstr (de : List (String × GoValue))
    (h : marshalOk de = true) : dynamicEntityToJSON de = .ok (jstr de) := by
  unfold marshalOk at h
  unfold jstr
  cases hj : dynamicEntityToJSON de with
  | ok v => rfl
  | error e => rw [hj] at h; exact absurd h (by simp)

theorem jsonRecord_ok_eq (s : JsonWriterState) (de : List (String × GoValue))
    (v : String) (h : dynamicEntityToJSON de = .ok v) :
    jsonRecord s de =
      if s.first = true then { s with out := s.out ++ v, first := false }
      else { s with out := (s.out ++ v) ++ ",\n" } := by
  unfold jsonRecord
  rw [h]
  cases hf : s.first <;> simp [hf]

theorem jsonRecord_error_eq (s : JsonWriterState) (de : List (String × GoValue))
    (e : String) (h : dynamicEntityToJSON de = .error e) :
    jsonRecord s de = { s with log := s.log ++ ["Unable to marshal entry: " ++ e] } := by
  unfold jsonRecord
  rw [h]

theorem foldl_jsonRecord_cont :
    ∀ (es : List (List (String × GoValue))) (s : JsonWriterState),
      s.first = false → (∀ e ∈ es, marshalOk e = true) →
      List.foldl jsonRecord s es =
        { s with out := s.out ++ strJoin (es.map (fun e => jstr e ++ ",\n")) } := by
  intro es
  induction es with
  | nil =>
    intro s hf _
    simp [strJoin]
  | cons e es ih =>
    intro s hf hok
    rw [List.foldl_cons,
      jsonRecord_ok_eq s e (jstr e) (toJSON_eq_jstr e (hok e (List.mem_cons_self _ _))),
      if_neg (by simp [hf])]
    rw [ih _ (by simp [hf]) (fun x hx => hok x (List.mem_cons_of_mem _ hx))]
    simp [strJoin, String.append_assoc]

theorem foldl_jsonRecord_first (e : List (String × GoValue))
    (es : List (List (String × GoValue))) (s : JsonWriterState)
    (hf : s.first = true) (hok : ∀ x ∈ e :: es, marshalOk x = true) :
    List.foldl jsonRecord s (e :: es) =
      { s with
          out := s.out ++ jstr e ++ strJoin (es.map (fun x => jstr x ++ ",\n")),
          first := false } := by
  rw [List.foldl_cons,
    jsonRecord_ok_eq s e (jstr e) (toJSON_eq_jstr e (hok e (List.mem_cons_self _ _))),
    if_pos hf]
  rw [foldl_jsonRecord_cont es _ rfl (fun x hx => hok x (List.mem_cons_of_mem _ hx))]

/-- A failure-free JSON export: start, all records in dataset order, end;
the trace follows `chunkSizes`. -/
theorem exportKindJson_ok (ds : List (List Property)) :
    exportKindJson ds [] =
      { writer := jsonEnd ((ds.map dynamicEntityLoad).foldl jsonRecord
          (jsonStart jsonWriterInit)),
        trace := chunkSizes ds.length,
        result := .ok () } := by
  unfold exportKindJson
  rw [exportKindLoop_ok]
  simp

/-- A failure-free CSV export: all records in dataset order; the trace
follows `chunkSizes`. -/
theorem exportKindCsv_ok (ds : List (List Property)) :
    exportKindCsv ds [] =
      { writer := csvEnd ((ds.map dynamicEntityLoad).foldl csvRecord
          (csvStart csvWriterInit)),
        trace := chunkSizes ds.length,
        result := .ok () } := by
  unfold exportKindCsv
  rw [exportKindLoop_ok]
  simp

/-! ### Claim theorems -/

theorem string_length_zero_iff (s : String) : s.length = 0 ↔ s = "" := by
  constructor
  · intro h
    cases s with
    | mk l =>
      cases l with
      | nil => rfl
      | cons c cs => simp [String.length] at h
  · intro h
    rw [h]
    rfl

theorem chunkSizes_1000 : chunkSizes 1000 = [1000, 0] := by
  rw [chunkSizes]
  norm_num
  rw [chunkSizes]
  simp

/-- Claim C1 (code bug): exporting a dataset at the claimed boundary
N = 1000 in JSON mode does NOT yield a syntactically valid JSON array of
1000 objects.  Evaluating the export of 1000 empty entities shows the
output is `[` followed by `{}` once without any separator, then 999
copies of `{},` + newline — i.e. no separator between the first two
objects and a trailing comma before the closing `]`.  The degenerate
N = 0 case does produce `[]` as the claim states. -/
theorem json_export_malformed_at_1000 :
    (exportKindJson (List.replicate 1000 ([] : List Property)) []).writer.out
      = "[" ++ "\x7b\x7d" ++ strJoin (List.replicate 999 "\x7b\x7d,\n") ++ "]"
    ∧ (exportKindJson [] []).writer.out = "[]" := by
  constructor
  · rw [exportKindJson_ok]
    dsimp only
    have hload : dynamicEntityLoad ([] : List Property) = [] := rfl
    have hmap : (List.replicate 1000 ([] : List Property)).map dynamicEntityLoad
        = [] :: List.replicate 999 ([] : List (String × GoValue)) := by
      rw [List.map_replicate, hload, show (1000 : Nat) = 999 + 1 by norm_num,
        List.replicate_succ]
    rw [hmap]
    have hstart : jsonStart jsonWriterInit = { out := "[", first := true, log := [] } := rfl
    rw [hstart]
    rw [foldl_jsonRecord_first [] (List.replicate 999 []) _ rfl ?hok]
    case hok =>
      intro x hx
      rcases List.mem_cons.mp hx with h | h
      · rw [h]; rfl
      · rw [List.eq_of_mem_replicate h]; rfl
    have hmap2 : (List.replicate 999 ([] : List (String × GoValue))).map
        (fun x => jstr x ++ ",\n") = List.replicate 999 "\x7b\x7d,\n" := by
      rw [List.map_replicate,
        show jstr ([] : List (String × GoValue)) ++ ",\n" = "\x7b\x7d,\n" from rfl]
    rw [hmap2]
    rw [show jstr ([] : List (String × GoValue)) = "\x7b\x7d" from rfl]
    unfold jsonEnd
    dsimp only
  · rw [exportKindJson_ok]
    rfl

/-- Claim C2 (code bug): in `jsonExportWriter.record` the `,` + newline
separator is written AFTER every record except the first, not before
every record except the first.  Writing two (empty) records yields
`[{}` after the first call — no separator pending — then `[{}{},` +
newline after the second: the separator lands after the second record,
and `end` closes the array right after it, leaving `[{}{},` newline
`]`. -/
theorem json_separator_after_records :
    (jsonRecord (jsonStart jsonWriterInit) []).out = "[\x7b\x7d"
    ∧ (jsonRecord (jsonRecord (jsonStart jsonWriterInit) []) []).out
        = "[\x7b\x7d\x7b\x7d,\n"
    ∧ (jsonEnd (jsonRecord (jsonRecord (jsonStart jsonWriterInit) []) [])).out
        = "[\x7b\x7d\x7b\x7d,\n]" :=
  ⟨rfl, rfl, rfl⟩

/-- Claim C3: the export driver fetches with a fixed limit of 1000,
advances the offset by the records actually returned, and stops exactly
when a page comes back empty: the sizes of the fetched pages are
precisely `chunkSizes` of the dataset size, the last fetched page is
the empty one, every earlier page is non-empty, the export completes,
and a dataset of exactly 1000 records takes exactly two fetch rounds —
one returning 1000 records and one returning 0. -/
theorem export_pagination (ds : List (List Property)) :
    (exportKindJson ds []).trace = chunkSizes ds.length
    ∧ (exportKindJson ds []).trace.getLast? = some 0
    ∧ ((exportKindJson ds []).trace.dropLast.all (fun x => x != 0)) = true
    ∧ (exportKindJson ds []).result = .ok ()
    ∧ (ds.length = 1000 → (exportKindJson ds []).trace = [1000, 0]) := by
  rw [exportKindJson_ok]
  refine ⟨rfl, chunkSizes_getLast _, chunkSizes_dropLast _, rfl, ?_⟩
  intro h
  dsimp only
  rw [h, chunkSizes_1000]

/-- Witness for C3 at a concrete dataset of exactly 1000 entities. -/
theorem export_pagination_witness :
    (List.replicate 1000 ([] : List Property)).length = 1000
    ∧ (exportKindJson (List.replicate 1000 ([] : List Property)) []).trace
        = [1000, 0] :=
  ⟨by rw [List.length_replicate],
   (export_pagination _).2.2.2.2 (by rw [List.length_replicate])⟩

/-- Claim C5: normalizing a backend key reference yields the reference's
name when the name is non-empty, and otherwise the decimal string form
of its numeric id; in particular a key with empty name and id 42
normalizes to the string `42`. -/
theorem key_reference_normalization (name : String) (id : Int) :
    (¬ name = "" → toExportValue (.key name id) = .vstr name)
    ∧ (name = "" → toExportValue (.key name id) = .vstr (toString id))
    ∧ toExportValue (.key "" 42) = .vstr "42" := by
  refine ⟨?_, ?_, rfl⟩
  · intro h
    show GoValue.vstr (if name.length = 0 then toString id else name) = _
    rw [if_neg (fun hl => h ((string_length_zero_iff name).mp hl))]
  · intro h
    subst h
    rfl

/-- Witness for C5 at a concrete named key and at the empty-name id-42
key of the claim. -/
theorem key_reference_normalization_witness :
    toExportValue (.key "user7" 7) = .vstr "user7"
    ∧ toExportValue (.key "" 42) = .vstr "42" :=
  ⟨(key_reference_normalization "user7" 7).1 (by simp),
   (key_reference_normalization "user7" 7).2.2⟩

theorem loadProps_skip_named (n : String) :
    ∀ (ps : List Property) (acc : List (String × GoValue)),
      (∀ p ∈ ps, p.name = n → p.value = .vnil) →
      loadProps acc ps = loadProps acc (ps.filter (fun p => p.name != n)) := by
  intro ps
  induction ps with
  | nil => intro acc _; rfl
  | cons p ps ih =>
    intro acc h
    by_cases hn : p.name = n
    · have hv : p.value = .vnil := h p (List.mem_cons_self _ _) hn
      rw [List.filter_cons_of_neg (by simp [hn])]
      rw [loadProps, if_pos (by rw [hv]; rfl)]
      exact ih acc (fun q hq => h q (List.mem_cons_of_mem _ hq))
    · rw [List.filter_cons_of_pos (by simp [hn])]
      rw [loadProps]
      conv_rhs => rw [loadProps]
      split
      · exact ih acc (fun q hq => h q (List.mem_cons_of_mem _ hq))
      · exact ih _ (fun q hq => h q (List.mem_cons_of_mem _ hq))

/-- Claim C4: a field whose every occurrence carries a nil value is
omitted entirely: it is absent from the map `Load` builds (hence from
the keys `ToJSON` serializes), removing it from the input changes
neither the `ToJSON` serialization nor the CSV header derived from the
record, and the same omission holds for a nil field of a nested entity
normalized by `toExportValue`. -/
theorem nil_field_omitted (ps : List Property) (n : String)
    (props : List (String × GoValue))
    (h1 : ∀ p ∈ ps, p.name = n → p.value = .vnil)
    (h2 : ∀ q ∈ props, q.1 = n → q.2 = .vnil) :
    ¬ n ∈ (dynamicEntityLoad ps).map Prod.fst
    ∧ dynamicEntityLoad ps = dynamicEntityLoad (ps.filter (fun p => p.name != n))
    ∧ dynamicEntityToJSON (dynamicEntityLoad ps)
        = dynamicEntityToJSON (dynamicEntityLoad (ps.filter (fun p => p.name != n)))
    ∧ toCSVHeader (dynamicEntityLoad ps)
        = toCSVHeader (dynamicEntityLoad (ps.filter (fun p => p.name != n)))
    ∧ ¬ n ∈ (exportEntityProps [] props).map Prod.fst := by
  have hfil : dynamicEntityLoad ps
      = dynamicEntityLoad (ps.filter (fun p => p.name != n)) :=
    loadProps_skip_named n ps [] h1
  refine ⟨?_, hfil, congrArg _ hfil, congrArg _ hfil, ?_⟩
  · intro hmem
    obtain ⟨q, hq, hqn⟩ := List.mem_map.mp hmem
    rcases mem_loadProps ps [] q hq with h | ⟨p, hp, hnil, hq2⟩
    · simp at h
    · have : p.name = n := by rw [hq2] at hqn; exact hqn
      rw [h1 p hp this] at hnil
      simp [isNil] at hnil
  · intro hmem
    obtain ⟨q, hq, hqn⟩ := List.mem_map.mp hmem
    rcases mem_exportEntityProps props [] q hq with h | ⟨p, hp, hnil, hq2⟩
    · simp at h
    · have : p.1 = n := by rw [hq2] at hqn; exact hqn
      rw [h2 p hp this] at hnil
      simp [isNil] at hnil

/-- Witness for C4 at a concrete entity with a nil field `a` (top level
and nested). -/
theorem nil_field_omitted_witness :
    ¬ "a" ∈ (dynamicEntityLoad
        [Property.mk "a" .vnil, Property.mk "b" (.vint 1)]).map Prod.fst
    ∧ ¬ "a" ∈ (exportEntityProps []
        [("a", GoValue.vnil), ("c", GoValue.vint 2)]).map Prod.fst :=
  ⟨(nil_field_omitted [Property.mk "a" .vnil, Property.mk "b" (.vint 1)] "a"
      [("a", GoValue.vnil), ("c", GoValue.vint 2)] (by simp) (by simp)).1,
   (nil_field_omitted [Property.mk "a" .vnil, Property.mk "b" (.vint 1)] "a"
      [("a", GoValue.vnil), ("c", GoValue.vint 2)] (by simp) (by simp)).2.2.2.2⟩

theorem flattenSpec_path_ne_empty :
    ∀ (N : Nat) (m : List (String × GoValue)), sizeOf m ≤ N →
      keysNonemptyFields m = true → ∀ q ∈ flattenSpec m, ¬ q.1 = "" := by
  intro N
  induction N with
  | zero =>
    intro m hm hk q hq
    cases m with
    | nil => simp [flattenSpec] at hq
    | cons p rest =>
      simp +arith [List.cons.sizeOf_spec] at hm
  | succ N ih =>
    intro m hm hk q hq
    cases m with
    | nil => simp [flattenSpec] at hq
    | cons p rest =>
      obtain ⟨k, v⟩ := p
      simp only [keysNonemptyFields, Bool.and_eq_true] at hk
      obtain ⟨⟨hk1, hk2⟩, hk3⟩ := hk
      have hk1' : ¬ k = "" := by simpa using hk1
      have hrest : sizeOf rest ≤ N := by
        simp +arith [List.cons.sizeOf_spec] at hm
        omega
      cases v with
      | gomap m2 =>
        simp only [flattenSpec] at hq
        rcases List.mem_append.mp hq with h | h
        · obtain ⟨q2, hq2, hq2e⟩ := List.mem_map.mp h
          rw [← hq2e]
          intro habs
          have : (k ++ ":" ++ q2.1).length = 0 :=
            (string_length_zero_iff _).mpr habs
          rw [String.length_append, String.length_append,
            show (":".length) = 1 from rfl] at this
          omega
        · exact ih rest hrest hk3 q h
      | vnil =>
        simp only [flattenSpec] at hq
        rcases List.mem_cons.mp hq with h | h
        · rw [h]; exact hk1'
        · exact ih rest hrest hk3 q h
      | vbool b =>
        simp only [flattenSpec] at hq
        rcases List.mem_cons.mp hq with h | h
        · rw [h]; exact hk1'
        · exact ih rest hrest hk3 q h
      | vint n2 =>
        simp only [flattenSpec] at hq
        rcases List.mem_cons.mp hq with h | h
        · rw [h]; exact hk1'
        · exact ih rest hrest hk3 q h
      | vstr s2 =>
        simp only [flattenSpec] at hq
        rcases List.mem_cons.mp hq with h | h
        · rw [h]; exact hk1'
        · exact ih rest hrest hk3 q h
      | vnan =>
        simp only [flattenSpec] at hq
        rcases List.mem_cons.mp hq with h | h
        · rw [h]; exact hk1'
        · exact ih rest hrest hk3 q h
      | key n2 i2 =>
        simp only [flattenSpec] at hq
        rcases List.mem_cons.mp hq with h | h
        · rw [h]; exact hk1'
        · exact ih rest hrest hk3 q h
      | entity l2 =>
        simp only [flattenSpec] at hq
        rcases List.mem_cons.mp hq with h | h
        · rw [h]; exact hk1'
        · exact ih rest hrest hk3 q h
      | arr l2 =>
        simp only [flattenSpec] at hq
        rcases List.mem_cons.mp hq with h | h
        · rw [h]; exact hk1'
        · exact ih rest hrest hk3 q h
      | prop n2 v2 =>
        simp only [flattenSpec] at hq
        rcases List.mem_cons.mp hq with h | h
        · rw [h]; exact hk1'
        · exact ih rest hrest hk3 q h

theorem flatten_eq_aux :
    ∀ (N : Nat) (m : List (String × GoValue)), sizeOf m ≤ N →
      keysNonemptyFields m = true → traverseFields m = flattenSpec m := by
  intro N
  induction N with
  | zero =>
    intro m hm hk
    cases m with
    | nil => simp [traverseFields, flattenSpec]
    | cons p rest => simp +arith [List.cons.sizeOf_spec] at hm
  | succ N ih =>
    intro m hm hk
    cases m with
    | nil => simp [traverseFields, flattenSpec]
    | cons p rest =>
      obtain ⟨k, v⟩ := p
      simp only [keysNonemptyFields, Bool.and_eq_true] at hk
      obtain ⟨⟨hk1, hk2⟩, hk3⟩ := hk
      have hrest : sizeOf rest ≤ N := by
        simp +arith [List.cons.sizeOf_spec] at hm
        omega
      rw [traverseFields]
      cases v with
      | gomap m2 =>
        have hm2 : sizeOf m2 ≤ N := by
          simp +arith [List.cons.sizeOf_spec, Prod.mk.sizeOf_spec,
            GoValue.gomap.sizeOf_spec] at hm
          omega
        rw [show traverseVal (.gomap m2) = traverseFields m2 from rfl]
        rw [ih m2 hm2 hk2, ih rest hrest hk3]
        simp only [flattenSpec]
        congr 1
        apply List.map_congr_left
        intro q hq
        rw [if_neg (flattenSpec_path_ne_empty (sizeOf m2) m2 le_rfl hk2 q hq)]
      | vnil =>
        rw [ih rest hrest hk3]
        simp only [flattenSpec]
        rfl
      | vbool b =>
        rw [ih rest hrest hk3]
        simp only [flattenSpec]
        rfl
      | vint n2 =>
        rw [ih rest hrest hk3]
        simp only [flattenSpec]
        rfl
      | vstr s2 =>
        rw [ih rest hrest hk3]
        simp only [flattenSpec]
        rfl
      | vnan =>
        rw [ih rest hrest hk3]
        simp only [flattenSpec]
        rfl
      | key n2 i2 =>
        rw [ih rest hrest hk3]
        simp only [flattenSpec]
        rfl
      | entity l2 =>
        rw [ih rest hrest hk3]
        simp only [flattenSpec]
        rfl
      | arr l2 =>
        rw [ih rest hrest hk3]
        simp only [flattenSpec]
        rfl
      | prop n2 v2 =>
        rw [ih rest hrest hk3]
        simp only [flattenSpec]
        rfl

/-- Claim C6 counterexample: with a nested map whose field name is
empty, the traversal emits the parent key alone (`a`) where the claim's
colon-joined path construction prescribes `a:`; the two flattenings
disagree on this entity. -/
theorem flatten_empty_key_collapses :
    traverseVal (.gomap [("a", .gomap [("", .vint 5)])]) = [("a", .vint 5)]
    ∧ flattenSpec [("a", .gomap [("", .vint 5)])] = [("a:", .vint 5)]
    ∧ traverseVal (.gomap [("a", .gomap [("", .vint 5)])])
        ≠ flattenSpec [("a", .gomap [("", .vint 5)])] := by
  have hf : flattenSpec [("a", .gomap [("", .vint 5)])]
      = [("a:", GoValue.vint 5)] := by
    simp only [flattenSpec, List.map_cons, List.map_nil, List.append_nil,
      List.cons_append, List.nil_append]
    rfl
  refine ⟨rfl, hf, ?_⟩
  intro hcontra
  rw [show traverseVal (.gomap [("a", .gomap [("", .vint 5)])])
      = [("a", GoValue.vint 5)] from rfl, hf] at hcontra
  simp at hcontra

/-- Claim C6 (amended): provided every map field name at every depth is
non-empty, flattening descends into map-valued fields only, a top-level
field contributes its own name as the path, a leaf under nested maps
gets the colon-joined ancestor-first path, and every non-map value
(sequences included) is a leaf emitted under its key undecomposed —
i.e. the source traversal agrees with the claim-literal `flattenSpec`.
A descendant under an empty field name instead collapses into its
parent's path, as the counterexample shows. -/
theorem flatten_colon_paths (m : List (String × GoValue))
    (h : keysNonemptyFields m = true) :
    traverseVal (.gomap m) = flattenSpec m := by
  rw [show traverseVal (.gomap m) = traverseFields m from rfl]
  exact flatten_eq_aux (sizeOf m) m le_rfl h

/-- Witness for C6 (amended) at a concrete entity with one nested map
field and one sequence field. -/
theorem flatten_colon_paths_witness :
    keysNonemptyFields [("p", GoValue.gomap [("c", GoValue.vint 1)]),
        ("s", GoValue.arr [GoValue.vint 1, GoValue.vint 2])] = true
    ∧ traverseVal (.gomap [("p", GoValue.gomap [("c", GoValue.vint 1)]),
        ("s", GoValue.arr [GoValue.vint 1, GoValue.vint 2])])
      = flattenSpec [("p", GoValue.gomap [("c", GoValue.vint 1)]),
        ("s", GoValue.arr [GoValue.vint 1, GoValue.vint 2])] :=
  ⟨rfl, flatten_colon_paths _ rfl⟩

theorem toCSVRecord_length (m : List (String × GoValue)) :
    (toCSVRecord m).length = (toCSVHeader m).length := by
  simp [toCSVRecord, toCSVHeader]

theorem foldl_csvRecord_headed :
    ∀ (es : List (List (String × GoValue))) (s : CsvWriterState),
      s.headed = true →
      List.foldl csvRecord s es
        = { headed := true, rows := s.rows ++ es.map toCSVRecord } := by
  intro es
  induction es with
  | nil =>
    intro s hs
    cases s with
    | mk headed rows =>
      dsimp at hs
      subst hs
      simp
  | cons e es ih =>
    intro s hs
    rw [List.foldl_cons]
    rw [show csvRecord s e = { s with rows := s.rows ++ [toCSVRecord e] } from by
      unfold csvRecord
      rw [hs]
      rfl]
    rw [ih _ (by rw [hs])]
    simp

/-- Claim C7: in CSV mode `start` and `end` write nothing, the first
record call emits the header row derived from that record's flattened
paths followed by its data row, every later record call emits exactly
one data row, and exporting a non-empty dataset whose entities share the
first entity's flattened paths yields one header row followed by exactly
one data row per entity, every row as long as the header. -/
theorem csv_export_shape (ps0 : List Property) (pss : List (List Property))
    (s : CsvWriterState)
    (h : ∀ ps ∈ pss, toCSVHeader (dynamicEntityLoad ps)
        = toCSVHeader (dynamicEntityLoad ps0)) :
    csvStart s = s
    ∧ csvEnd s = s
    ∧ (exportKindCsv (ps0 :: pss) []).writer.rows
        = toCSVHeader (dynamicEntityLoad ps0)
          :: ((ps0 :: pss).map (fun ps => toCSVRecord (dynamicEntityLoad ps)))
    ∧ ((ps0 :: pss).map (fun ps => toCSVRecord (dynamicEntityLoad ps))).length
        = (ps0 :: pss).length
    ∧ (((ps0 :: pss).map (fun ps => toCSVRecord (dynamicEntityLoad ps))).all
        (fun r => r.length == (toCSVHeader (dynamicEntityLoad ps0)).length))
      = true := by
  refine ⟨rfl, rfl, ?_, by simp, ?_⟩
  · rw [exportKindCsv_ok]
    dsimp only
    rw [List.map_cons, List.foldl_cons]
    rw [show csvRecord (csvStart csvWriterInit) (dynamicEntityLoad ps0)
        = { headed := true,
            rows := [toCSVHeader (dynamicEntityLoad ps0),
              toCSVRecord (dynamicEntityLoad ps0)] } from rfl]
    rw [foldl_csvRecord_headed (pss.map dynamicEntityLoad) _ rfl]
    dsimp only [csvEnd]
    rw [List.map_map]
    simp [Function.comp]
  · rw [List.all_eq_true]
    intro r hr
    obtain ⟨ps, hps, hre⟩ := List.mem_map.mp hr
    rw [← hre]
    simp only [beq_iff_eq]
    rw [toCSVRecord_length]
    rcases List.mem_cons.mp hps with h0 | hmem
    · rw [h0]
    · rw [h ps hmem]

/-- Witness for C7 at two concrete single-field entities with the same
field set: one header row, two data rows. -/
theorem csv_export_shape_witness :
    (exportKindCsv [[Property.mk "a" (.vint 1)], [Property.mk "a" (.vint 2)]]
        []).writer.rows = [["a"], ["1"], ["2"]] := by
  have hmain := (csv_export_shape [Property.mk "a" (.vint 1)]
      [[Property.mk "a" (.vint 2)]] csvWriterInit
      (fun ps hps => by rw [List.mem_singleton.mp hps]; rfl)).2.2.1
  rw [hmain]
  rfl

theorem marshalOk_false_error (de : List (String × GoValue))
    (h : marshalOk de = false) : ∃ e, dynamicEntityToJSON de = .error e := by
  unfold marshalOk at h
  cases hj : dynamicEntityToJSON de with
  | ok v => rw [hj] at h; simp at h
  | error e => exact ⟨e, rfl⟩

theorem jsonRecord_out_first (s t : JsonWriterState)
    (e : List (String × GoValue)) (ho : s.out = t.out) (hf : s.first = t.first) :
    (jsonRecord s e).out = (jsonRecord t e).out
    ∧ (jsonRecord s e).first = (jsonRecord t e).first := by
  unfold jsonRecord
  cases hm : dynamicEntityToJSON e with
  | error err => exact ⟨ho, hf⟩
  | ok v =>
    dsimp only
    rw [ho, ← hf]
    cases hsf : s.first <;> simp [hsf, ho]

theorem foldl_jsonRecord_skip :
    ∀ (es : List (List (String × GoValue))) (s t : JsonWriterState),
      s.out = t.out → s.first = t.first →
      (List.foldl jsonRecord s es).out
          = (List.foldl jsonRecord t (es.filter marshalOk)).out
      ∧ (List.foldl jsonRecord s es).first
          = (List.foldl jsonRecord t (es.filter marshalOk)).first := by
  intro es
  induction es with
  | nil =>
    intro s t ho hf
    exact ⟨ho, hf⟩
  | cons e es ih =>
    intro s t ho hf
    by_cases hm : marshalOk e = true
    · rw [List.filter_cons_of_pos hm, List.foldl_cons, List.foldl_cons]
      exact ih (jsonRecord s e) (jsonRecord t e)
        (jsonRecord_out_first s t e ho hf).1 (jsonRecord_out_first s t e ho hf).2
    · have hm' : marshalOk e = false := by
        cases hmm : marshalOk e
        · rfl
        · exact absurd hmm hm
      obtain ⟨err, herr⟩ := marshalOk_false_error e hm'
      rw [List.filter_cons_of_neg (by rw [hm']; simp), List.foldl_cons]
      rw [jsonRecord_error_eq s e err herr]
      exact ih _ t ho hf

theorem exportKindLoop_err_second {σ : Type}
    (f : σ → List (String × GoValue) → σ) (ds : List (List Property))
    (h : 1000 ≤ ds.length) (st : σ) :
    exportKindLoop f ds [1000] 0 st
      = { writer := ((ds.take 1000).map dynamicEntityLoad).foldl f st,
          trace := [1000], result := .error () } := by
  rw [exportKindLoop]
  rw [if_neg (by simp : ¬ (0 : Nat) ∈ [1000])]
  dsimp only
  have hb : ((ds.drop 0).take 1000).length = 1000 := by
    simp only [List.drop_zero, List.length_take, List.length_drop]
    omega
  rw [dif_neg (by rw [hb]; norm_num)]
  rw [hb, Nat.zero_add]
  rw [exportKindLoop]
  rw [if_pos (by simp : (1000 : Nat) ∈ [1000])]
  rw [List.drop_zero, ← List.foldl_map dynamicEntityLoad f]

/-- Claim C8: error classification.  A page-fetch error aborts the
export at once, returning the error: with the second fetch failing, the
export stops with exactly the first page's 1000 records written (no
closing `]`, no further records, output left as is).  A record that
fails to serialize is logged to the diagnostic stream and skipped — the
writer state's output and first-record flag are exactly those obtained
on the marshalable records alone, so the export continues with the next
record. -/
theorem error_classification (ds : List (List Property))
    (hlen : 1000 ≤ ds.length) (st : JsonWriterState)
    (de : List (String × GoValue)) (msg : String)
    (hbad : dynamicEntityToJSON de = .error msg)
    (es : List (List (String × GoValue))) :
    exportKindJson ds [1000]
      = { writer := ((ds.take 1000).map dynamicEntityLoad).foldl jsonRecord
            (jsonStart jsonWriterInit),
          trace := [1000],
          result := .error () }
    ∧ jsonRecord st de
        = { st with log := st.log ++ ["Unable to marshal entry: " ++ msg] }
    ∧ (List.foldl jsonRecord st es).out
        = (List.foldl jsonRecord st (es.filter marshalOk)).out
    ∧ (List.foldl jsonRecord st es).first
        = (List.foldl jsonRecord st (es.filter marshalOk)).first := by
  refine ⟨?_, jsonRecord_error_eq st de msg hbad,
    (foldl_jsonRecord_skip es st st rfl rfl).1,
    (foldl_jsonRecord_skip es st st rfl rfl).2⟩
  unfold exportKindJson
  rw [exportKindLoop_err_second jsonRecord ds hlen]

/-- Witness for C8: a fetch failure on the second page of a concrete
1500-entity dataset aborts with an error, and a record containing a NaN
float is logged and skipped while the neighboring records are written. -/
theorem error_classification_witness :
    (exportKindJson (List.replicate 1500 ([] : List Property)) [1000]).result
      = .error ()
    ∧ jsonRecord jsonWriterInit [("x", GoValue.vnan)]
        = { jsonWriterInit with
            log := ["Unable to marshal entry: json: unsupported value: NaN"] }
    ∧ (List.foldl jsonRecord jsonWriterInit
          [[("a", GoValue.vint 1)], [("x", GoValue.vnan)],
           [("b", GoValue.vint 2)]]).out
        = (List.foldl jsonRecord jsonWriterInit
            ([[("a", GoValue.vint 1)], [("x", GoValue.vnan)],
              [("b", GoValue.vint 2)]].filter marshalOk)).out := by
  have hth := error_classification (List.replicate 1500 ([] : List Property))
    (by rw [List.length_replicate]; norm_num) jsonWriterInit
    [("x", GoValue.vnan)] "json: unsupported value: NaN" rfl
    [[("a", GoValue.vint 1)], [("x", GoValue.vnan)], [("b", GoValue.vint 2)]]
  refine ⟨?_, hth.2.1, hth.2.2.1⟩
  rw [hth.1]

theorem toExportValue_not_nil (v : GoValue) (hp : propFree v = true)
    (hn : isNil v = false) : isNil (toExportValue v) = false := by
  cases v with
  | vnil => simp [isNil] at hn
  | vbool b => rfl
  | vint n => rfl
  | vstr s => rfl
  | vnan => rfl
  | key n i => rfl
  | entity l => rfl
  | arr l => rfl
  | gomap l => rfl
  | prop n v2 => simp [propFree] at hp

theorem toExportValue_idem_aux :
    ∀ (N : Nat) (v : GoValue), sizeOf v ≤ N → propFree v = true →
      toExportValue (toExportValue v) = toExportValue v := by
  intro N
  induction N with
  | zero =>
    intro v hv hp
    cases v <;> simp +arith at hv
  | succ N ih =>
    intro v hv hp
    cases v with
    | vnil => rfl
    | vbool b => rfl
    | vint n => rfl
    | vstr s => rfl
    | vnan => rfl
    | key n i => rfl
    | gomap m => rfl
    | entity props => rfl
    | prop n v2 => simp [propFree] at hp
    | arr es =>
      have hp' : propFreeElems es = true := hp
      have hes : ∀ e ∈ es, sizeOf e ≤ N := by
        intro e he
        have h1 := List.sizeOf_lt_of_mem he
        have h2 : sizeOf (GoValue.arr es) = 1 + sizeOf es := by
          simp +arith
        omega
      show GoValue.arr (exportArrElems (exportArrElems es))
          = GoValue.arr (exportArrElems es)
      congr 1
      have inner : ∀ (l : List GoValue), (∀ e ∈ l, sizeOf e ≤ N) →
          propFreeElems l = true →
          exportArrElems (exportArrElems l) = exportArrElems l := by
        intro l
        induction l with
        | nil => intro _ _; rfl
        | cons e l2 ih2 =>
          intro hsz hpf
          simp only [propFreeElems, Bool.and_eq_true] at hpf
          obtain ⟨hpe, hpl⟩ := hpf
          by_cases hn : isNil e = true
          · have h1 : exportArrElems (e :: l2) = exportArrElems l2 := by
              rw [exportArrElems, if_pos hn]
            rw [h1]
            exact ih2 (fun x hx => hsz x (List.mem_cons_of_mem _ hx)) hpl
          · have hn' : isNil e = false := by
              cases hni : isNil e
              · rfl
              · exact absurd hni hn
            have h1 : exportArrElems (e :: l2)
                = toExportValue e :: exportArrElems l2 := by
              rw [exportArrElems, if_neg (by rw [hn']; simp)]
            rw [h1]
            have h2 : exportArrElems (toExportValue e :: exportArrElems l2)
                = toExportValue (toExportValue e)
                  :: exportArrElems (exportArrElems l2) := by
              rw [exportArrElems,
                if_neg (by rw [toExportValue_not_nil e hpe hn']; simp)]
            rw [h2]
            rw [ih e (hsz e (List.mem_cons_self _ _)) hpe]
            rw [ih2 (fun x hx => hsz x (List.mem_cons_of_mem _ hx)) hpl]
      exact inner es hes hp'

/-- Claim C9 counterexample: the normalizer is not idempotent on every
input.  A sequence holding a `datastore.Property` that wraps nil
normalizes to a sequence holding nil (the Property survives the nil
filter, then unwraps to nil), and normalizing again filters that nil
out: the two passes disagree. -/
theorem normalize_not_idempotent :
    toExportValue (toExportValue (.arr [.prop "x" .vnil]))
      ≠ toExportValue (.arr [.prop "x" .vnil]) := by
  show GoValue.arr [] ≠ GoValue.arr [GoValue.vnil]
  simp

/-- Claim C9 (amended): the normalizer is idempotent on every input that
contains no `datastore.Property` wrapper — in particular on every value
it can itself produce from such inputs and on every raw datastore value
— because normalized output contains only plain scalars, sequences and
maps, none of which match the backend-specific cases. -/
theorem normalize_idempotent_propFree (v : GoValue)
    (h : propFree v = true) :
    toExportValue (toExportValue v) = toExportValue v :=
  toExportValue_idem_aux (sizeOf v) v le_rfl h

/-- Witness for C9 (amended) at a concrete entity with a key reference
and a nil-holding sequence. -/
theorem normalize_idempotent_propFree_witness :
    propFree (.entity [("k", GoValue.key "" 42),
        ("l", GoValue.arr [GoValue.vint 1, GoValue.vnil])]) = true
    ∧ toExportValue (toExportValue (.entity [("k", GoValue.key "" 42),
        ("l", GoValue.arr [GoValue.vint 1, GoValue.vnil])]))
      = toExportValue (.entity [("k", GoValue.key "" 42),
        ("l", GoValue.arr [GoValue.vint 1, GoValue.vnil])]) :=
  ⟨rfl, normalize_idempotent_propFree _ rfl⟩

theorem toExportValue_nilFree_aux :
    ∀ (N : Nat) (v : GoValue), sizeOf v ≤ N → dsValue v = true →
      isNil v = false → nilFree (toExportValue v) = true := by
  intro N
  induction N with
  | zero =>
    intro v hv hd hn
    cases v <;> simp +arith at hv
  | succ N ih =>
    intro v hv hd hn
    cases v with
    | vnil => simp [isNil] at hn
    | vbool b => rfl
    | vint n => rfl
    | vstr s => rfl
    | vnan => rfl
    | key n i => rfl
    | gomap m => simp [dsValue] at hd
    | prop n v2 => simp [dsValue] at hd
    | entity props =>
      have hd' : dsValueFields props = true := hd
      show nilFreeFields (exportEntityProps [] props) = true
      rw [nilFreeFields_iff]
      intro q hq
      rcases mem_exportEntityProps props [] q hq with h0 | ⟨p, hp, hnn, hqe⟩
      · simp at h0
      · rw [hqe]
        dsimp only
        have hsz : sizeOf p.2 ≤ N := by
          have h1 := List.sizeOf_lt_of_mem hp
          have h2 : sizeOf (GoValue.entity props) = 1 + sizeOf props := by
            simp +arith
          have h3 : sizeOf p.2 < sizeOf p := by
            obtain ⟨pn, pv⟩ := p
            simp +arith
          omega
        exact ih p.2 hsz ((dsValueFields_iff props).mp hd' p hp) hnn
    | arr es =>
      have hd' : dsValueElems es = true := hd
      show nilFreeElems (exportArrElems es) = true
      rw [nilFreeElems_iff]
      intro x hx
      rcases mem_exportArrElems es x hx with ⟨e, he, hnn, hxe⟩
      rw [hxe]
      have hsz : sizeOf e ≤ N := by
        have h1 := List.sizeOf_lt_of_mem he
        have h2 : sizeOf (GoValue.arr es) = 1 + sizeOf es := by
          simp +arith
        omega
      exact ih e hsz ((dsValueElems_iff es).mp hd' e he) hnn

/-- Claim C10: an entity map populated via `Load` from datastore-typed
property values contains no nil anywhere: nil top-level properties are
dropped, nil fields of nested entities are dropped, nil sequence
elements are skipped, and every value reachable through the stored
maps and sequences is non-nil. -/
theorem load_nil_free (ps : List Property)
    (h : ∀ p ∈ ps, dsValue p.value = true) :
    nilFreeFields (dynamicEntityLoad ps) = true := by
  rw [nilFreeFields_iff]
  intro q hq
  rcases mem_loadProps ps [] q hq with h0 | ⟨p, hp, hnn, hqe⟩
  · simp at h0
  · rw [hqe]
    dsimp only
    show nilFree (toExportValue p.value) = true
    exact toExportValue_nilFree_aux (sizeOf p.value) p.value le_rfl (h p hp) hnn

/-- Witness for C10 at a concrete entity with a nil property, a nested
entity holding a nil field, and a sequence holding a nil element. -/
theorem load_nil_free_witness :
    nilFreeFields (dynamicEntityLoad
      [Property.mk "a" (.vint 1), Property.mk "b" .vnil,
       Property.mk "c" (.entity [("d", .vnil), ("e", .vstr "x")]),
       Property.mk "f" (.arr [.vnil, .vint 2])]) = true :=
  load_nil_free _ (by intro p hp; fin_cases hp <;> rfl)

end Cdskit
